import Mathlib

/-
Formal model of the obstack object-stack arena (boost::arena::basic_obstack,
src/obstack.hpp and src/obstack.cpp).

The arena is embedded shallowly: addresses are natural numbers, the buffer of
chunk headers is a function from header addresses to header records, and every
bool-returning member function of the source becomes a Bool-valued Lean
function with the same name.  Alignments, sizes and the process-wide cookies
(which the source draws from a PRNG at startup) are parameters, collected in a
`Platform` record; a C++ object type enters only through its sizeof, alignof
and the address of its instantiated destructor `call_dtor<T>`, collected in a
`Ty` record.

Deallocation functions additionally return the list of observable events they
perform (header overwrites, rewinds of the top-of-stack cursor, destructor
invocations), in the order the corresponding statements execute in the source;
this makes the temporal claims about destructor ordering statable.  The model
is total: paths on which the source calls a destructor are recorded as an
`invoke` event (invoking the null pointer 0 models the crash the source would
exhibit there).

The two while loops of the source (`deallocate_as_possible` and `dealloc_all`)
are embedded with an explicit fuel argument; the wrappers pass `capacity + 1`
fuel, which the chain-length lemma below shows is never exhausted on
well-formed states, so the fueled functions agree with the source's loops.

Machine arithmetic: address computations are kept exact (they do not overflow
in the states considered), except for the `size_type` multiplication
`sizeof(T) * num_elements` inside `alloc_array` / `mem_available(n)`, which the
source performs in w-bit machine arithmetic and which the model therefore
reduces modulo `2 ^ w`.
-/

/-- A C++ object type as the arena sees it: `sizeof(T)`, `alignof(T)`, and the
address of the instantiated destructor thunk `call_dtor<T>`. -/
structure Ty where
  size : Nat
  align : Nat
  dtor : Nat
deriving DecidableEq

/-- Platform and process parameters: `alignof(max_align_t)`,
`alignof(chunk_header)`, `sizeof(chunk_header)`, the two random cookies of
`ptr_sec`, the addresses of the two marker destructor functions, and the bit
width of `size_type`. -/
structure Platform where
  maxAlign : Nat
  hdrAlign : Nat
  hdrSize : Nat
  xorCookie : Nat
  checksumCookie : Nat
  freeMarkerDtor : Nat
  arrayDtor : Nat
  w : Nat
deriving DecidableEq

/-- Source `offset_to_alignment`: padding bytes from `p` up to the next
multiple of `align_to`. -/
def offset_to_alignment (p align_to : Nat) : Nat :=
  if p % align_to ≠ 0 then align_to - p % align_to else 0

/-- Source `max_aligned_sizeof<T>`: `sz` rounded up to a multiple of
`maxAlign`. -/
def max_aligned_sizeof (sz maxAlign : Nat) : Nat :=
  if sz % maxAlign ≠ 0 then sz + (maxAlign - sz % maxAlign) else sz

/-- The header stride `max_aligned_sizeof<chunk_header>::value`: the distance
from a chunk header to its payload. -/
def Platform.stride (P : Platform) : Nat := max_aligned_sizeof P.hdrSize P.maxAlign

/-- Source `ptr_sec::xor_ptr`: obfuscation of a pointer with the XOR cookie. -/
def xor_ptr (P : Platform) (p : Nat) : Nat := p ^^^ P.xorCookie

/-- Source `free_marker_dtor_xor = xor_ptr(&free_marker_dtor)`. -/
def Platform.freeMarkerXor (P : Platform) : Nat := xor_ptr P P.freeMarkerDtor

/-- Source `array_of_primitives_dtor_xor = xor_ptr(&array_of_primitives_dtor)`. -/
def Platform.arrayDtorXor (P : Platform) : Nat := xor_ptr P P.arrayDtor

/-- Source `alignment<T>::value = max(alignof(T), alignof(chunk_header))`. -/
def alignmentOf (P : Platform) (T : Ty) : Nat :=
  if P.hdrAlign < T.align then T.align else P.hdrAlign

/-- Source `alignment<max_align_t>::value`, used by `max_overhead`. -/
def max_alignmentVal (P : Platform) : Nat :=
  if P.hdrAlign < P.maxAlign then P.maxAlign else P.hdrAlign

/-- Source `ptr_sec::make_checksum(prev, xored_dtor)`. -/
def make_checksum (P : Platform) (prev dtorX : Nat) : Nat :=
  dtorX ^^^ prev ^^^ P.checksumCookie

/-- Source `ptr_sec::checksum_ok(prev, xored_dtor, checksum)`. -/
def checksum_ok (P : Platform) (prev dtorX cks : Nat) : Bool :=
  cks == make_checksum P prev dtorX

/-- The `chunk_header` record: back link, obfuscated destructor slot,
checksum. -/
structure ChunkHeader where
  prev : Nat
  dtor : Nat
  checksum : Nat
deriving DecidableEq

/-- Arena state: buffer base address, capacity in bytes, top-of-stack address
`tos`, most recent chunk header address `top_chunk` (0 encodes NULL), and the
contents of all chunk headers in memory. -/
structure ArenaState where
  base : Nat
  cap : Nat
  tos : Nat
  top_chunk : Nat
  hdrs : Nat → ChunkHeader

/-- Write one chunk header into header memory. -/
def setHdr (hdrs : Nat → ChunkHeader) (a : Nat) (h : ChunkHeader) : Nat → ChunkHeader :=
  fun x => if x = a then h else hdrs x

/-- Source `memory.end_of_mem()`. -/
def end_of_mem (s : ArenaState) : Nat := s.base + s.cap

/-- Source `size()`: bytes already allocated, `tos - memory.mem()`. -/
def size (s : ArenaState) : Nat := s.tos - s.base

/-- Source `capacity()`. -/
def capacity (s : ArenaState) : Nat := s.cap

/-- Source `mem_available<T>()`: the capacity check of `alloc<T>`. -/
def mem_available (P : Platform) (s : ArenaState) (T : Ty) : Bool :=
  decide (s.tos + offset_to_alignment s.tos (alignmentOf P T) + P.stride + T.size
            < end_of_mem s)

/-- Source `mem_available<T>(num_elements)`: the capacity check of
`alloc_array<T>`; the byte count `sizeof(T) * num_elements` is a `size_type`
product and wraps modulo `2 ^ w`. -/
def mem_available_n (P : Platform) (s : ArenaState) (T : Ty) (n : Nat) : Bool :=
  decide (s.tos + offset_to_alignment s.tos (alignmentOf P T) + P.stride
            + T.size * n % 2 ^ P.w < end_of_mem s)

/-- Source `allocate(align_to, size, xored_dtor)`: pad `tos`, write the new
chunk header (with checksum) at the padded address, link it, advance `tos`
past header stride and payload. -/
def allocate (P : Platform) (s : ArenaState) (align_to sz dtorX : Nat) : ArenaState :=
  let tos1 := s.tos + offset_to_alignment s.tos align_to
  { s with
    tos := tos1 + P.stride + sz
    top_chunk := tos1
    hdrs := setHdr s.hdrs tos1
      { prev := s.top_chunk, dtor := dtorX
        checksum := make_checksum P s.top_chunk dtorX } }

/-- Source `top_object()`: payload address of the top chunk. -/
def top_object (P : Platform) (s : ArenaState) : Nat := s.top_chunk + P.stride

/-- Source `alloc<T>(...)`: capacity check, then `push<T>` (allocate and
placement-construct, returning the payload pointer); `none` models the NULL
return.  Constructor arguments only initialise payload bytes, which the model
does not track. -/
def alloc (P : Platform) (s : ArenaState) (T : Ty) : ArenaState × Option Nat :=
  if mem_available P s T then
    let s' := allocate P s (alignmentOf P T) T.size (xor_ptr P T.dtor)
    (s', some (top_object P s'))
  else (s, none)

/-- Source `alloc_array<T>(num_elements)`: the byte count is the wrapped
`size_type` product; the destructor slot holds the array-of-primitives
marker. -/
def alloc_array (P : Platform) (s : ArenaState) (T : Ty) (n : Nat) : ArenaState × Option Nat :=
  if mem_available_n P s T n then
    let s' := allocate P s (alignmentOf P T) (T.size * n % 2 ^ P.w) P.arrayDtorXor
    (s', some (top_object P s'))
  else (s, none)

/-- Source `to_chunk_header(obj)`: the header sits `stride` bytes before the
payload. -/
def to_chunk_header (P : Platform) (obj : Nat) : Nat := obj - P.stride

/-- Source `is_top(obj)`. -/
def is_top (P : Platform) (s : ArenaState) (obj : Nat) : Bool :=
  to_chunk_header P obj == s.top_chunk

/-- Source `is_valid(const chunk_header*)`: header address inside
`[mem, end_of_mem]` (both ends inclusive, as written) and checksum intact. -/
def is_valid_hdr (P : Platform) (s : ArenaState) (ch : Nat) : Bool :=
  (decide (s.base ≤ ch) && decide (ch ≤ end_of_mem s))
    && checksum_ok P (s.hdrs ch).prev (s.hdrs ch).dtor (s.hdrs ch).checksum

/-- Source `is_valid(const void*)`: validity of a payload pointer via its
derived header. -/
def is_valid (P : Platform) (s : ArenaState) (p : Nat) : Bool :=
  is_valid_hdr P s (to_chunk_header P p)

/-- The validity predicate exactly as the specification words it, for
comparison with the source's `is_valid`: (a) the payload pointer itself lies
strictly inside `[buffer, buffer + C)`, (b) the derived header's checksum is
intact. -/
def is_valid_specside (P : Platform) (s : ArenaState) (p : Nat) : Bool :=
  (decide (s.base ≤ p) && decide (p < end_of_mem s))
    && checksum_ok P (s.hdrs (to_chunk_header P p)).prev
        (s.hdrs (to_chunk_header P p)).dtor (s.hdrs (to_chunk_header P p)).checksum

/-- Observable events of the deallocation paths, in program order: overwriting
a header's destructor slot with the free marker, rewinding the cursors, and
invoking a destructor function pointer on a payload. -/
inductive Event where
  | markFree (hdr : Nat)
  | rewind (tos top : Nat)
  | invoke (dtor obj : Nat)
deriving DecidableEq

/-- Destructor invocations of a trace, as (function pointer, payload) pairs in
order. -/
def invokes (tr : List Event) : List (Nat × Nat) :=
  tr.filterMap fun e =>
    match e with
    | Event.invoke d o => some (d, o)
    | _ => none

/-- The state after overwriting the destructor slot of the header at `ch`
with the free marker (the write `chead->dtor = free_marker_dtor_xor`). -/
def markedState (P : Platform) (s : ArenaState) (ch : Nat) : ArenaState :=
  { s with hdrs := setHdr s.hdrs ch { s.hdrs ch with dtor := P.freeMarkerXor } }

/-- Source `mark_as_destructed(chead)` (release build: `BOOST_ASSERT` is a
no-op): if the header validates, decode the stored destructor, overwrite the
slot with the free marker and return the decoded pointer; otherwise return
NULL (0) and change nothing. -/
def mark_as_destructed (P : Platform) (s : ArenaState) (ch : Nat) :
    ArenaState × Nat × List Event :=
  if is_valid_hdr P s ch then
    (markedState P s ch, xor_ptr P (s.hdrs ch).dtor, [Event.markFree ch])
  else (s, 0, [])

/-- Source `deallocate_as_possible` loop body, with fuel bounding the number
of iterations: while the top chunk is marked free, rewind `tos` and
`top_chunk`. -/
def deallocate_as_possible_fuel (P : Platform) : Nat → ArenaState → ArenaState
  | 0, s => s
  | fuel + 1, s =>
    if s.top_chunk ≠ 0 ∧ (s.hdrs s.top_chunk).dtor = P.freeMarkerXor then
      deallocate_as_possible_fuel P fuel
        { s with tos := s.top_chunk, top_chunk := (s.hdrs s.top_chunk).prev }
    else s

/-- Source `deallocate_as_possible`; `cap + 1` fuel always suffices on
well-formed states. -/
def deallocate_as_possible (P : Platform) (s : ArenaState) : ArenaState :=
  deallocate_as_possible_fuel P (s.cap + 1) s

/-- Source `pop(chead, obj)`: mark the header destructed, rewind as far as
possible, and only then invoke the decoded destructor on the payload. -/
def pop (P : Platform) (s : ArenaState) (ch obj : Nat) : ArenaState × List Event :=
  let m := mark_as_destructed P s ch
  let s2 := deallocate_as_possible P m.1
  (s2, m.2.2 ++ [Event.rewind s2.tos s2.top_chunk, Event.invoke m.2.1 obj])

/-- Source `destruct(chead, obj)`: mark the header destructed, then invoke the
decoded destructor; no memory is reclaimed. -/
def destruct (P : Platform) (s : ArenaState) (ch obj : Nat) : ArenaState × List Event :=
  let m := mark_as_destructed P s ch
  (m.1, m.2.2 ++ [Event.invoke m.2.1 obj])

/-- Source `dealloc(obj)`: null is a no-op; the top payload is popped, any
other pointer is interior-destructed. -/
def dealloc (P : Platform) (s : ArenaState) (obj : Nat) : ArenaState × List Event :=
  if obj = 0 then (s, [])
  else if is_top P s obj then pop P s (to_chunk_header P obj) obj
  else destruct P s (to_chunk_header P obj) obj

/-- Source `dealloc_all` loop body with fuel: while `top_chunk` is non-null,
pop it. -/
def dealloc_all_fuel (P : Platform) : Nat → ArenaState → ArenaState × List Event
  | 0, s => (s, [])
  | fuel + 1, s =>
    if s.top_chunk ≠ 0 then
      let r1 := pop P s s.top_chunk (s.top_chunk + P.stride)
      let r2 := dealloc_all_fuel P fuel r1.1
      (r2.1, r1.2 ++ r2.2)
    else (s, [])

/-- Source `dealloc_all`; `cap + 1` fuel always suffices on well-formed
states. -/
def dealloc_all (P : Platform) (s : ArenaState) : ArenaState × List Event :=
  dealloc_all_fuel P (s.cap + 1) s

/-- Source `max_overhead(num_elements)`. -/
def max_overhead (P : Platform) (n : Nat) : Nat :=
  (P.stride + max_alignmentVal P) * n

/-- A sequence of `alloc` calls, returning the final state and the result of
each call. -/
def allocSeq (P : Platform) : ArenaState → List Ty → ArenaState × List (Option Nat)
  | s, [] => (s, [])
  | s, T :: rest =>
    let r1 := alloc P s T
    let r2 := allocSeq P r1.1 rest
    (r2.1, r1.2 :: r2.2)

/-- Ghost record of one allocation: its header address, the real destructor
registered for it, and whether it is still live (not yet interior
destructed). -/
structure ChunkInfo where
  hdr : Nat
  dtor : Nat
  live : Bool
deriving DecidableEq

/-- Ghost effect of an interior destruct: the chunk at header address `a`
loses its live flag. -/
def markGhost (l : List ChunkInfo) (a : Nat) : List ChunkInfo :=
  l.map fun d => if d.hdr = a then { d with live := false } else d

/-- Well-formedness of the header chain hanging off `cursor` (newest first),
all below `bound`: addresses decrease by at least the header stride, every
header's destructor slot and checksum agree with the ghost record (a live
chunk stores its obfuscated real destructor, a destructed one the free marker;
the checksum always reflects the originally stored slot), and no real
destructor coincides with the free-marker function. -/
def chainWF (P : Platform) (base : Nat) (hdrs : Nat → ChunkHeader) :
    List ChunkInfo → Nat → Nat → Prop
  | [], cursor, _bound => cursor = 0
  | c :: rest, cursor, bound =>
    cursor = c.hdr ∧ c.hdr ≠ 0 ∧ base ≤ c.hdr ∧ c.hdr + P.stride ≤ bound ∧
    (hdrs c.hdr).dtor = (if c.live then xor_ptr P c.dtor else P.freeMarkerXor) ∧
    (hdrs c.hdr).checksum = make_checksum P (hdrs c.hdr).prev (xor_ptr P c.dtor) ∧
    c.dtor ≠ P.freeMarkerDtor ∧
    chainWF P base hdrs rest (hdrs c.hdr).prev c.hdr

/-- The head of the ghost list (the top chunk) is live. -/
def headLiveOK : List ChunkInfo → Prop
  | [] => True
  | c :: _ => c.live = true

/-- Arena invariant relative to a ghost allocation record (newest first),
without the top-chunk-is-live condition (which is broken transiently inside a
pop). -/
def WFr (P : Platform) (s : ArenaState) (chunks : List ChunkInfo) : Prop :=
  0 < s.base ∧ P.maxAlign ∣ s.base ∧ s.base ≤ s.tos ∧ s.tos ≤ end_of_mem s ∧
  chainWF P s.base s.hdrs chunks s.top_chunk s.tos ∧
  (chunks = [] → s.tos = s.base) ∧
  (∀ c, chunks.getLast? = some c → c.hdr = s.base) ∧
  (∀ c, c ∈ chunks → c.hdr ≠ 0)

/-- Full arena invariant. -/
def WF (P : Platform) (s : ArenaState) (chunks : List ChunkInfo) : Prop :=
  WFr P s chunks ∧ headLiveOK chunks

/-- States reachable from a fresh arena by successful typed allocations and
interior deallocations (the operation mix of claim C3), together with the
ghost allocation record, newest first. -/
inductive Reach (P : Platform) : ArenaState → List ChunkInfo → Prop
  | init (base cap : Nat) (hdrs : Nat → ChunkHeader) :
      0 < base → P.maxAlign ∣ base →
      Reach P { base := base, cap := cap, tos := base, top_chunk := 0, hdrs := hdrs } []
  | alloc_step (s : ArenaState) (chunks : List ChunkInfo) (T : Ty) (s' : ArenaState) (p : Nat) :
      Reach P s chunks →
      T.align ∣ P.maxAlign → P.hdrAlign ∣ P.maxAlign →
      T.dtor ≠ P.freeMarkerDtor →
      alloc P s T = (s', some p) →
      Reach P s' ({ hdr := s'.top_chunk, dtor := T.dtor, live := true } :: chunks)
  | dealloc_step (s : ArenaState) (chunks : List ChunkInfo) (c : ChunkInfo)
      (s' : ArenaState) (tr : List Event) :
      Reach P s chunks →
      c ∈ chunks → c.live = true → c.hdr ≠ s.top_chunk →
      dealloc P s (c.hdr + P.stride) = (s', tr) →
      Reach P s' (markGhost chunks c.hdr)

/-- Concrete platform used for witnesses and counterexamples: x86-64-like
layout constants, arbitrary small cookies, 16-bit `size_type`. -/
def P0 : Platform :=
  { maxAlign := 16, hdrAlign := 8, hdrSize := 24, xorCookie := 5, checksumCookie := 9
    freeMarkerDtor := 1000, arrayDtor := 1001, w := 16 }

/-- Fresh concrete arena: buffer at address 16, 200 bytes of capacity. -/
def s0 : ArenaState :=
  { base := 16, cap := 200, tos := 16, top_chunk := 0, hdrs := fun _ => ⟨0, 0, 0⟩ }

/-- A concrete 8-byte, 8-aligned type. -/
def tyA : Ty := { size := 8, align := 8, dtor := 2000 }

/-- A concrete 4-byte, 4-aligned type. -/
def tyB : Ty := { size := 4, align := 4, dtor := 2024 }

/-- A concrete 2-byte POD element type for array allocation. -/
def tyArr : Ty := { size := 2, align := 2, dtor := 0 }

/-- State after allocating `tyA` on the fresh arena. -/
def s1 : ArenaState := (alloc P0 s0 tyA).1

/-- Ghost record of that first allocation. -/
def cA : ChunkInfo := { hdr := s1.top_chunk, dtor := tyA.dtor, live := true }

/-- Ghost list after the first allocation. -/
def g1 : List ChunkInfo := [cA]

/-- State after additionally allocating `tyB`. -/
def s2 : ArenaState := (alloc P0 s1 tyB).1

/-- Ghost list after both allocations. -/
def g2 : List ChunkInfo := { hdr := s2.top_chunk, dtor := tyB.dtor, live := true } :: g1

/-- State after interior-deallocating the first (non-top) object. -/
def s3 : ArenaState := (dealloc P0 s2 (cA.hdr + P0.stride)).1

/-- Ghost list after that interior deallocation. -/
def g3 : List ChunkInfo := markGhost g2 cA.hdr

/-- Arena with 48 bytes of capacity, sized so that one `tyC1` allocation
reaches the capacity boundary exactly. -/
def s_c1 : ArenaState :=
  { base := 16, cap := 48, tos := 16, top_chunk := 0, hdrs := fun _ => ⟨0, 0, 0⟩ }

/-- A 16-byte type whose padded footprint on `s_c1` equals the capacity. -/
def tyC1 : Ty := { size := 16, align := 8, dtor := 3000 }

/-- Arena whose header memory nowhere satisfies the checksum. -/
def sBad : ArenaState :=
  { base := 16, cap := 200, tos := 16, top_chunk := 0, hdrs := fun _ => ⟨0, 7, 123⟩ }

/-- Arena whose header memory everywhere satisfies the checksum (with the `P0`
cookies, `make_checksum 0 7 = 14`). -/
def sCk : ArenaState :=
  { base := 1000, cap := 64, tos := 1000, top_chunk := 0, hdrs := fun _ => ⟨0, 7, 14⟩ }

/-- C1 counterexample: an allocation whose padded footprint exactly reaches
capacity (`size + padding + stride + sizeof = capacity`) is rejected: `alloc`
returns null, because `mem_available` uses strict `<` against `end_of_mem`. -/
theorem alloc_boundary_cex :
    size s_c1 + offset_to_alignment s_c1.tos (alignmentOf P0 tyC1) + P0.stride + tyC1.size
        = capacity s_c1
      ∧ (alloc P0 s_c1 tyC1).2 = none := by
  decide

/-- C1 (amended): `alloc<T>` succeeds exactly when
`tos + padding + header_stride + sizeof(T)` is strictly below `end_of_mem`;
at boundary equality it returns null. -/
theorem alloc_succeeds_iff_strict (P : Platform) (s : ArenaState) (T : Ty) :
    ((alloc P s T).2 ≠ none ↔
      s.tos + offset_to_alignment s.tos (alignmentOf P T) + P.stride + T.size < end_of_mem s)
    ∧ (s.tos + offset_to_alignment s.tos (alignmentOf P T) + P.stride + T.size = end_of_mem s →
        (alloc P s T).2 = none) := by
  by_cases h :
      s.tos + offset_to_alignment s.tos (alignmentOf P T) + P.stride + T.size < end_of_mem s
  · constructor
    · simp [alloc, mem_available, h]
    · intro he
      omega
  · constructor
    · simp [alloc, mem_available, h]
    · intro _
      simp [alloc, mem_available, h]

/-- C1 witness: the amended claim evaluated at the concrete boundary input. -/
theorem alloc_succeeds_iff_strict_witness :
    ((alloc P0 s_c1 tyC1).2 ≠ none ↔
      s_c1.tos + offset_to_alignment s_c1.tos (alignmentOf P0 tyC1) + P0.stride + tyC1.size
        < end_of_mem s_c1)
    ∧ (s_c1.tos + offset_to_alignment s_c1.tos (alignmentOf P0 tyC1) + P0.stride + tyC1.size
          = end_of_mem s_c1 →
        (alloc P0 s_c1 tyC1).2 = none) :=
  alloc_succeeds_iff_strict P0 s_c1 tyC1

/-- C2: `alloc` returns null exactly when the capacity check fails, and on the
failure path the arena state (cursors and header memory alike) is returned
unchanged; the model of that path is a total function that performs no other
effect, matching the source's throw-free `return NULL`. -/
theorem alloc_failure_frame (P : Platform) (s : ArenaState) (T : Ty) :
    ((alloc P s T).2 = none ↔ mem_available P s T = false)
    ∧ ((alloc P s T).2 = none → (alloc P s T).1 = s) := by
  by_cases h : mem_available P s T
  · simp [alloc, h]
  · simp only [Bool.not_eq_true] at h
    simp [alloc, h]

/-- C2 witness: the failure frame evaluated at the concrete boundary input. -/
theorem alloc_failure_frame_witness :
    ((alloc P0 s_c1 tyC1).2 = none ↔ mem_available P0 s_c1 tyC1 = false)
    ∧ ((alloc P0 s_c1 tyC1).2 = none → (alloc P0 s_c1 tyC1).1 = s_c1) :=
  alloc_failure_frame P0 s_c1 tyC1

/-- C7 counterexample: a pointer one header stride past the end of the buffer.
The source's `is_valid` accepts it (the derived header address `base + cap`
lies in the inclusive range `[mem, end_of_mem]` and the checksum matches),
while the specification's wording (the payload pointer itself strictly inside
`[buffer, buffer + C)`) rejects it. -/
theorem is_valid_range_cex :
    is_valid P0 sCk 1096 = true ∧ is_valid_specside P0 sCk 1096 = false := by
  decide

/-- C7 (amended): `is_valid(p)` holds iff the derived header address
`p - header_stride` lies in the inclusive range `[buffer, buffer + C]` and
that header's checksum is intact. -/
theorem is_valid_characterization (P : Platform) (s : ArenaState) (p : Nat) :
    is_valid P s p = true ↔
      (s.base ≤ p - P.stride ∧ p - P.stride ≤ s.base + s.cap ∧
        (s.hdrs (p - P.stride)).checksum
          = make_checksum P (s.hdrs (p - P.stride)).prev (s.hdrs (p - P.stride)).dtor) := by
  simp [is_valid, is_valid_hdr, to_chunk_header, checksum_ok, end_of_mem,
    Bool.and_eq_true, beq_iff_eq, and_assoc]

/-- C10: in `alloc_array`, the byte count `sizeof(T) * n` is computed in w-bit
machine arithmetic; for the 2-byte element type there is an element count `n`
whose product wraps to a small value, so the capacity check passes and a
non-null pointer is returned although the exact byte count exceeds the
remaining capacity. -/
theorem alloc_array_wrap :
    1 < tyArr.size ∧
    ∃ n : Nat,
      2 ^ P0.w ≤ tyArr.size * n ∧
      mem_available_n P0 s0 tyArr n = true ∧
      (alloc_array P0 s0 tyArr n).2 ≠ none ∧
      end_of_mem s0 < s0.tos + tyArr.size * n := by
  refine ⟨by decide, 32768, by decide, by decide, by decide, by decide⟩

/-- C5 counterexample: on an interior deallocation the source overwrites the
destructor slot with the free marker *before* invoking the real destructor,
not after as the claim orders the two operations: the concrete event trace is
mark-then-invoke and differs from the claimed invoke-then-mark trace. -/
theorem dealloc_interior_order_cex :
    (dealloc P0 s2 48).2 = [Event.markFree 16, Event.invoke 2000 48]
    ∧ (dealloc P0 s2 48).2 ≠ [Event.invoke 2000 48, Event.markFree 16] := by
  decide

/-- C5 (amended): for a non-null, non-top pointer whose header validates,
`dealloc` decodes the real destructor, overwrites the header's destructor slot
with the free marker, and then invokes the decoded destructor; no memory is
reclaimed and `tos`, `top_chunk`, the header's `prev` and `checksum` fields
(the checksum is not recomputed), all other headers, and `size()` are
unchanged. -/
theorem dealloc_interior_spec (P : Platform) (s : ArenaState) (obj : Nat)
    (h0 : obj ≠ 0) (hnt : to_chunk_header P obj ≠ s.top_chunk)
    (hval : is_valid_hdr P s (to_chunk_header P obj) = true) :
    dealloc P s obj =
      (markedState P s (to_chunk_header P obj),
       [Event.markFree (to_chunk_header P obj),
        Event.invoke (xor_ptr P (s.hdrs (to_chunk_header P obj)).dtor) obj])
    ∧ (dealloc P s obj).1.tos = s.tos
    ∧ (dealloc P s obj).1.top_chunk = s.top_chunk
    ∧ (dealloc P s obj).1.base = s.base
    ∧ (dealloc P s obj).1.cap = s.cap
    ∧ ((dealloc P s obj).1.hdrs (to_chunk_header P obj)).prev
        = (s.hdrs (to_chunk_header P obj)).prev
    ∧ ((dealloc P s obj).1.hdrs (to_chunk_header P obj)).checksum
        = (s.hdrs (to_chunk_header P obj)).checksum
    ∧ (∀ a, a ≠ to_chunk_header P obj → (dealloc P s obj).1.hdrs a = s.hdrs a)
    ∧ size (dealloc P s obj).1 = size s := by
  have htop : is_top P s obj = false := by
    simp only [is_top, beq_eq_false_iff_ne, ne_eq]
    exact hnt
  have hmain : dealloc P s obj =
      (markedState P s (to_chunk_header P obj),
       [Event.markFree (to_chunk_header P obj),
        Event.invoke (xor_ptr P (s.hdrs (to_chunk_header P obj)).dtor) obj]) := by
    simp [dealloc, h0, htop, destruct, mark_as_destructed, hval]
  refine ⟨hmain, ?_⟩
  rw [hmain]
  simp [markedState, setHdr, size]
  intro a h1 h2
  exact absurd h2 h1

/-- C6: when `dealloc` is called on the valid top-of-stack payload, the event
order is: the header is overwritten with the free marker, then the rewind scan
updates `tos` and `top_chunk` (the resulting state is exactly the rewind of
the marked state), and only last is the decoded real destructor invoked on the
payload. -/
theorem dealloc_top_order (P : Platform) (s : ArenaState) (obj : Nat)
    (h0 : obj ≠ 0) (htop : to_chunk_header P obj = s.top_chunk)
    (hval : is_valid_hdr P s s.top_chunk = true) :
    ∃ s', dealloc P s obj =
        (s', [Event.markFree s.top_chunk,
              Event.rewind s'.tos s'.top_chunk,
              Event.invoke (xor_ptr P (s.hdrs s.top_chunk).dtor) obj])
      ∧ s' = deallocate_as_possible P (markedState P s s.top_chunk) := by
  have hist : is_top P s obj = true := by
    simp only [is_top, beq_iff_eq]
    exact htop
  refine ⟨deallocate_as_possible P (markedState P s s.top_chunk), ?_, rfl⟩
  simp [dealloc, h0, hist, pop, mark_as_destructed, htop, hval]

/-- C8 counterexample: `dealloc` on a pointer whose header fails the checksum
does consult the validation: nothing is decoded or marked, and the null
function pointer 0 is invoked instead of the decoded stored slot (which here
decodes to 2, not 0). -/
theorem dealloc_invalid_cex :
    (dealloc P0 sBad 100).2 = [Event.invoke 0 100]
    ∧ xor_ptr P0 (sBad.hdrs (to_chunk_header P0 100)).dtor ≠ 0 := by
  decide

/-- C8 (amended): the core `dealloc` validates the supplied pointer through
`mark_as_destructed`: for a non-null interior pointer, if the header checksum
(or range) check fails, no slot is decoded, no header is written, the state is
returned unchanged and a null function pointer is invoked; only when the check
passes is the stored slot decoded and invoked. -/
theorem dealloc_checks_checksum (P : Platform) (s : ArenaState) (obj : Nat)
    (h0 : obj ≠ 0) (hnt : to_chunk_header P obj ≠ s.top_chunk) :
    (is_valid_hdr P s (to_chunk_header P obj) = false →
        dealloc P s obj = (s, [Event.invoke 0 obj]))
    ∧ (is_valid_hdr P s (to_chunk_header P obj) = true →
        (dealloc P s obj).2
          = [Event.markFree (to_chunk_header P obj),
             Event.invoke (xor_ptr P (s.hdrs (to_chunk_header P obj)).dtor) obj]) := by
  have htop : is_top P s obj = false := by
    simp only [is_top, beq_eq_false_iff_ne, ne_eq]
    exact hnt
  constructor
  · intro hv
    simp [dealloc, h0, htop, destruct, mark_as_destructed, hv]
  · intro hv
    simp [dealloc, h0, htop, destruct, mark_as_destructed, hv]

/-- C8 witness: the amended claim at the corrupt concrete arena. -/
theorem dealloc_checks_checksum_witness :
    (is_valid_hdr P0 sBad (to_chunk_header P0 100) = false →
        dealloc P0 sBad 100 = (sBad, [Event.invoke 0 100]))
    ∧ (is_valid_hdr P0 sBad (to_chunk_header P0 100) = true →
        (dealloc P0 sBad 100).2
          = [Event.markFree (to_chunk_header P0 100),
             Event.invoke (xor_ptr P0 (sBad.hdrs (to_chunk_header P0 100)).dtor) 100]) :=
  dealloc_checks_checksum P0 sBad 100 (by decide) (by decide)

/-- C5 witness: the amended interior-deallocation contract at the concrete
two-object arena, deallocating the buried first object. -/
theorem dealloc_interior_spec_witness :
    dealloc P0 s2 48 =
      (markedState P0 s2 (to_chunk_header P0 48),
       [Event.markFree (to_chunk_header P0 48),
        Event.invoke (xor_ptr P0 (s2.hdrs (to_chunk_header P0 48)).dtor) 48])
    ∧ (dealloc P0 s2 48).1.tos = s2.tos
    ∧ (dealloc P0 s2 48).1.top_chunk = s2.top_chunk
    ∧ (dealloc P0 s2 48).1.base = s2.base
    ∧ (dealloc P0 s2 48).1.cap = s2.cap
    ∧ ((dealloc P0 s2 48).1.hdrs (to_chunk_header P0 48)).prev
        = (s2.hdrs (to_chunk_header P0 48)).prev
    ∧ ((dealloc P0 s2 48).1.hdrs (to_chunk_header P0 48)).checksum
        = (s2.hdrs (to_chunk_header P0 48)).checksum
    ∧ (∀ a, a ≠ to_chunk_header P0 48 → (dealloc P0 s2 48).1.hdrs a = s2.hdrs a)
    ∧ size (dealloc P0 s2 48).1 = size s2 :=
  dealloc_interior_spec P0 s2 48 (by decide) (by decide) (by decide)

/-- C6 witness: the top-of-stack deallocation order at the concrete two-object
arena, deallocating the top object. -/
theorem dealloc_top_order_witness :
    ∃ s', dealloc P0 s2 88 =
        (s', [Event.markFree s2.top_chunk,
              Event.rewind s'.tos s'.top_chunk,
              Event.invoke (xor_ptr P0 (s2.hdrs s2.top_chunk).dtor) 88])
      ∧ s' = deallocate_as_possible P0 (markedState P0 s2 s2.top_chunk) :=
  dealloc_top_order P0 s2 88 (by decide) (by decide) (by decide)

/-- XOR with the same key twice is the identity (decode of encode). -/
theorem xor_xor_cancel (a k : Nat) : (a ^^^ k) ^^^ k = a := by
  simp [Nat.xor_assoc]

/-- Obfuscation with the XOR cookie is injective. -/
theorem xor_ptr_inj (P : Platform) (a b : Nat) (h : xor_ptr P a = xor_ptr P b) : a = b := by
  have h2 := congrArg (fun x => x ^^^ P.xorCookie) h
  simpa [xor_ptr, Nat.xor_assoc] using h2

/-- Padding never exceeds the alignment. -/
theorem offset_to_alignment_le (p a : Nat) : offset_to_alignment p a ≤ a := by
  unfold offset_to_alignment
  split
  · omega
  · omega

/-- Adding the padding reaches an aligned address. -/
theorem offset_to_alignment_add_mod (p a : Nat) (h : 0 < a) :
    (p + offset_to_alignment p a) % a = 0 := by
  unfold offset_to_alignment
  by_cases hr : p % a = 0
  · simp [hr]
  · rw [if_pos hr]
    have h1 : p % a ≤ p := Nat.mod_le p a
    have h2 : p % a < a := Nat.mod_lt p h
    have h3 : p + (a - p % a) = p - p % a + a := by omega
    rw [h3]
    have h5 := Nat.div_add_mod p a
    have h4 : p - p % a = a * (p / a) := by omega
    rw [h4]
    have h6 : a * (p / a) + a = a * (p / a + 1) := by ring
    rw [h6]
    exact Nat.mul_mod_right a _


/-- An already aligned address needs no padding. -/
theorem offset_to_alignment_mul (a k : Nat) : offset_to_alignment (a * k) a = 0 := by
  unfold offset_to_alignment
  simp [Nat.mul_mod_right]

/-- Rounding up to a multiple of `m` yields a multiple of `m`. -/
theorem dvd_max_aligned_sizeof (sz m : Nat) (h : 0 < m) : m ∣ max_aligned_sizeof sz m := by
  unfold max_aligned_sizeof
  by_cases hr : sz % m = 0
  · rw [if_neg (not_not_intro hr)]
    exact Nat.dvd_of_mod_eq_zero hr
  · rw [if_pos hr]
    have h1 : sz % m ≤ sz := Nat.mod_le sz m
    have h2 : sz % m < m := Nat.mod_lt sz h
    have h3 : sz + (m - sz % m) = sz - sz % m + m := by omega
    rw [h3]
    have h5 := Nat.div_add_mod sz m
    have h4 : sz - sz % m = m * (sz / m) := by omega
    rw [h4]
    exact ⟨sz / m + 1, by ring⟩

/-- Divisibility of powers of two follows their order. -/
theorem pow_two_dvd_of_le (i j : Nat) (h : (2 : Nat) ^ i ≤ 2 ^ j) : (2 : Nat) ^ i ∣ 2 ^ j :=
  pow_dvd_pow 2 ((Nat.pow_le_pow_iff_right (by norm_num)).mp h)

/-- For power-of-two alignments, `alignof(T)` divides the effective alignment
`alignment<T>::value`. -/
theorem align_dvd_alignmentOf (P : Platform) (T : Ty)
    (hTp : ∃ i, T.align = 2 ^ i) (hHp : ∃ j, P.hdrAlign = 2 ^ j) :
    T.align ∣ alignmentOf P T := by
  unfold alignmentOf
  by_cases h : P.hdrAlign < T.align
  · simp [h]
  · rw [if_neg h]
    obtain ⟨i, hi⟩ := hTp
    obtain ⟨j, hj⟩ := hHp
    rw [hi, hj]
    rw [hi, hj] at h
    exact pow_two_dvd_of_le i j (le_of_not_lt h)

/-- The effective alignment is positive for power-of-two `alignof(T)`. -/
theorem alignmentOf_pos (P : Platform) (T : Ty) (hTp : ∃ i, T.align = 2 ^ i) :
    0 < alignmentOf P T := by
  obtain ⟨i, hi⟩ := hTp
  have hpos : 0 < T.align := by
    rw [hi]
    exact pow_pos (by norm_num) i
  unfold alignmentOf
  by_cases h : P.hdrAlign < T.align
  · simpa [h] using hpos
  · rw [if_neg h]
    omega

/-- C4: a successful `alloc<T>` returns a pointer aligned to `alignof(T)`,
for power-of-two alignments not exceeding `MAX_ALIGN` and a `MAX_ALIGN`
aligned buffer. -/
theorem alloc_aligned (P : Platform) (s : ArenaState) (T : Ty) (p : Nat)
    (hTp : ∃ i, T.align = 2 ^ i) (hHp : ∃ j, P.hdrAlign = 2 ^ j)
    (hTm : T.align ∣ P.maxAlign) (hM : 0 < P.maxAlign)
    (_hb : P.maxAlign ∣ s.base)
    (hsucc : (alloc P s T).2 = some p) :
    p % T.align = 0 := by
  by_cases hm : mem_available P s T
  · simp only [alloc, hm, if_true, top_object, allocate] at hsucc
    have hp : s.tos + offset_to_alignment s.tos (alignmentOf P T) + P.stride = p := by
      simpa using hsucc
    have heffpos : 0 < alignmentOf P T := alignmentOf_pos P T hTp
    have h1 : (s.tos + offset_to_alignment s.tos (alignmentOf P T)) % alignmentOf P T = 0 :=
      offset_to_alignment_add_mod s.tos (alignmentOf P T) heffpos
    have h2 : T.align ∣ s.tos + offset_to_alignment s.tos (alignmentOf P T) :=
      dvd_trans (align_dvd_alignmentOf P T hTp hHp) (Nat.dvd_of_mod_eq_zero h1)
    have h3 : T.align ∣ P.stride :=
      dvd_trans hTm (dvd_max_aligned_sizeof P.hdrSize P.maxAlign hM)
    have h4 : T.align ∣ p := by
      rw [← hp]
      exact Nat.dvd_add h2 h3
    obtain ⟨k, hk⟩ := h4
    rw [hk]
    exact Nat.mul_mod_right T.align k
  · simp [alloc, hm] at hsucc

/-- C4 witness: the first concrete allocation returns the 8-aligned pointer
48. -/
theorem alloc_aligned_witness :
    (alloc P0 s0 tyA).2 = some 48 ∧ 48 % tyA.align = 0 :=
  ⟨by decide,
   alloc_aligned P0 s0 tyA 48 ⟨3, rfl⟩ ⟨3, rfl⟩ (by decide) (by decide) (by decide) (by decide)⟩

/-- Allocation never moves the buffer. -/
theorem alloc_fst_base (P : Platform) (s : ArenaState) (T : Ty) :
    (alloc P s T).1.base = s.base ∧ (alloc P s T).1.cap = s.cap := by
  by_cases h : mem_available P s T
  · simp [alloc, h, allocate]
  · simp [alloc, h]

/-- The effective alignment is bounded by `MAX_ALIGN` when both ingredients
are. -/
theorem alignmentOf_le (P : Platform) (T : Ty) (hTa : T.align ≤ P.maxAlign)
    (hH : P.hdrAlign ≤ P.maxAlign) : alignmentOf P T ≤ P.maxAlign := by
  unfold alignmentOf
  by_cases h : P.hdrAlign < T.align <;> simp [h] <;> omega

/-- One allocation consumes at most `sizeof(T)` plus the worst case overhead
`header_stride + MAX_ALIGN`. -/
theorem alloc_tos_le (P : Platform) (s : ArenaState) (T : Ty)
    (hTa : T.align ≤ P.maxAlign) (hH : P.hdrAlign ≤ P.maxAlign) :
    (alloc P s T).1.tos ≤ s.tos + T.size + (P.stride + P.maxAlign) := by
  by_cases h : mem_available P s T
  · have h1 : offset_to_alignment s.tos (alignmentOf P T) ≤ P.maxAlign :=
      le_trans (offset_to_alignment_le s.tos (alignmentOf P T)) (alignmentOf_le P T hTa hH)
    simp only [alloc, h, if_true, allocate]
    omega
  · simp [alloc, h]
    omega

/-- Under `alignof(chunk_header) ≤ MAX_ALIGN`, `alignment<max_align_t>::value`
is `MAX_ALIGN` itself. -/
theorem max_alignmentVal_eq (P : Platform) (hH : P.hdrAlign ≤ P.maxAlign) :
    max_alignmentVal P = P.maxAlign := by
  unfold max_alignmentVal
  by_cases h : P.hdrAlign < P.maxAlign
  · simp [h]
  · simp [h]
    omega

/-- Overhead bound for a whole allocation sequence, by induction over the
list of types. -/
theorem allocSeq_tos_le (P : Platform) (hH : P.hdrAlign ≤ P.maxAlign) :
    ∀ (L : List Ty) (s : ArenaState), (∀ T ∈ L, T.align ≤ P.maxAlign) →
      (allocSeq P s L).1.tos ≤ s.tos + (L.map Ty.size).sum + max_overhead P L.length ∧
      (allocSeq P s L).1.base = s.base := by
  intro L
  induction L with
  | nil =>
    intro s _
    simp [allocSeq, max_overhead]
  | cons T rest ih =>
    intro s hT
    have hTa : T.align ≤ P.maxAlign := hT T (by simp)
    have hrest : ∀ T2 ∈ rest, T2.align ≤ P.maxAlign := fun T2 h2 => hT T2 (by simp [h2])
    have h1 := alloc_tos_le P s T hTa hH
    have h2 := alloc_fst_base P s T
    have h3 := ih (alloc P s T).1 hrest
    have hov : ∀ n : Nat, max_overhead P (n + 1) = max_overhead P n + (P.stride + P.maxAlign) := by
      intro n
      unfold max_overhead
      rw [max_alignmentVal_eq P hH, Nat.mul_succ]
    constructor
    · simp only [allocSeq, List.map_cons, List.sum_cons, List.length_cons]
      rw [hov rest.length]
      omega
    · simp only [allocSeq]
      rw [h3.2, h2.1]

/-- C9: `max_overhead(n)` equals `n * (header_stride + MAX_ALIGN)`, and for a
sequence of `n` successful allocations from a fresh arena whose types all have
alignment at most `MAX_ALIGN`, the overhead actually consumed —
`size()` minus the summed `sizeof`s — never exceeds `max_overhead(n)`. -/
theorem max_overhead_correct (P : Platform) (st : ArenaState) (L : List Ty)
    (hH : P.hdrAlign ≤ P.maxAlign)
    (hT : ∀ T ∈ L, T.align ≤ P.maxAlign)
    (hfresh : st.tos = st.base)
    (_hsucc : ∀ r ∈ (allocSeq P st L).2, r ≠ none) :
    max_overhead P L.length = L.length * (P.stride + P.maxAlign) ∧
    size (allocSeq P st L).1 - (L.map Ty.size).sum ≤ max_overhead P L.length := by
  have h := allocSeq_tos_le P hH L st hT
  constructor
  · unfold max_overhead
    rw [max_alignmentVal_eq P hH, Nat.mul_comm]
  · simp only [size]
    rw [h.2]
    omega

/-- C9 witness: both concrete allocations succeed and the bound holds. -/
theorem max_overhead_correct_witness :
    max_overhead P0 ([tyA, tyB].length) = [tyA, tyB].length * (P0.stride + P0.maxAlign) ∧
    size (allocSeq P0 s0 [tyA, tyB]).1 - ([tyA, tyB].map Ty.size).sum
        ≤ max_overhead P0 [tyA, tyB].length :=
  max_overhead_correct P0 s0 [tyA, tyB] (by decide) (by decide) (by decide) (by decide)

/-- The chain invariant only uses its bound for the head chunk, so it is
monotone in the bound. -/
theorem chainWF_mono (P : Platform) (base : Nat) (hdrs : Nat → ChunkHeader)
    (chks : List ChunkInfo) (cursor b1 b2 : Nat)
    (h : chainWF P base hdrs chks cursor b1) (hb : b1 ≤ b2) :
    chainWF P base hdrs chks cursor b2 := by
  cases chks with
  | nil => exact h
  | cons c rest =>
    simp only [chainWF] at h ⊢
    obtain ⟨h1, h2, h3, h4, h5⟩ := h
    exact ⟨h1, h2, h3, by omega, h5⟩

/-- Writing a header at or above the chain's bound leaves the chain invariant
intact: every chunk of the chain lies strictly below the bound. -/
theorem chainWF_set (P : Platform) (hstride : 0 < P.stride) (base : Nat)
    (hdrs : Nat → ChunkHeader) (a : Nat) (v : ChunkHeader) :
    ∀ (chks : List ChunkInfo) (cursor bound : Nat),
      chainWF P base hdrs chks cursor bound → bound ≤ a →
      chainWF P base (setHdr hdrs a v) chks cursor bound := by
  intro chks
  induction chks with
  | nil =>
    intro cursor bound h _
    exact h
  | cons c rest ih =>
    intro cursor bound h ha
    simp only [chainWF] at h ⊢
    obtain ⟨h1, h2, h3, h4, h5, h6, h7, h8⟩ := h
    have hne : c.hdr ≠ a := by omega
    have hread : setHdr hdrs a v c.hdr = hdrs c.hdr := by simp [setHdr, hne]
    rw [hread]
    exact ⟨h1, h2, h3, h4, h5, h6, h7, ih _ _ h8 (by omega)⟩

/-- The chain cannot have more links than bytes between base and bound:
addresses strictly decrease by at least the (positive) stride. -/
theorem chainWF_length (P : Platform) (hstride : 0 < P.stride) (base : Nat)
    (hdrs : Nat → ChunkHeader) :
    ∀ (chks : List ChunkInfo) (cursor bound : Nat),
      chainWF P base hdrs chks cursor bound → chks.length ≤ bound - base := by
  intro chks
  induction chks with
  | nil =>
    intro cursor bound _
    simp
  | cons c rest ih =>
    intro cursor bound h
    simp only [chainWF] at h
    obtain ⟨h1, h2, h3, h4, h5, h6, h7, h8⟩ := h
    have := ih _ _ h8
    simp only [List.length_cons]
    omega

/-- Every member of the chain is in range and has the header contents the
ghost record predicts. -/
theorem chainWF_mem (P : Platform) (base : Nat) (hdrs : Nat → ChunkHeader) :
    ∀ (chks : List ChunkInfo) (cursor bound : Nat) (c : ChunkInfo),
      chainWF P base hdrs chks cursor bound → c ∈ chks →
      base ≤ c.hdr ∧ c.hdr + P.stride ≤ bound ∧
      (hdrs c.hdr).dtor = (if c.live then xor_ptr P c.dtor else P.freeMarkerXor) ∧
      (hdrs c.hdr).checksum = make_checksum P (hdrs c.hdr).prev (xor_ptr P c.dtor) ∧
      c.dtor ≠ P.freeMarkerDtor := by
  intro chks
  induction chks with
  | nil =>
    intro cursor bound c _ hc
    simp at hc
  | cons d rest ih =>
    intro cursor bound c h hc
    simp only [chainWF] at h
    obtain ⟨h1, h2, h3, h4, h5, h6, h7, h8⟩ := h
    rcases List.mem_cons.mp hc with hcd | hcr
    · subst hcd
      exact ⟨h3, h4, h5, h6, h7⟩
    · have hr := ih _ _ c h8 hcr
      refine ⟨hr.1, ?_, hr.2.2⟩
      have := hr.2.1
      omega

/-- Ghost-marking an address that occurs nowhere in a list is the identity. -/
theorem markGhost_id (a : Nat) :
    ∀ (l : List ChunkInfo), (∀ e ∈ l, e.hdr ≠ a) → markGhost l a = l := by
  intro l
  induction l with
  | nil =>
    intro _
    rfl
  | cons d t ih =>
    intro h
    have hd : d.hdr ≠ a := h d (by simp)
    have ht := ih fun e he => h e (by simp [he])
    simp only [markGhost, List.map_cons] at ht ⊢
    rw [if_neg hd, ht]

/-- Ghost marking preserves header addresses of the last element. -/
theorem markGhost_getLast_hdr (a : Nat) (l : List ChunkInfo) (d : ChunkInfo)
    (h : (markGhost l a).getLast? = some d) :
    ∃ e, l.getLast? = some e ∧ d.hdr = e.hdr := by
  unfold markGhost at h
  rw [List.getLast?_map] at h
  cases he : l.getLast? with
  | none =>
    rw [he] at h
    simp at h
  | some e =>
    rw [he] at h
    have h2 : (if e.hdr = a then { e with live := false } else e) = d := by
      injection h
    refine ⟨e, rfl, ?_⟩
    by_cases hc : e.hdr = a
    · rw [if_pos hc] at h2
      rw [← h2]
    · rw [if_neg hc] at h2
      rw [← h2]

/-- The head of the chain left after dropping destructed chunks is live. -/
theorem dropWhile_live_head : ∀ (l : List ChunkInfo),
    headLiveOK (l.dropWhile fun d => !d.live) := by
  intro l
  induction l with
  | nil => trivial
  | cons d t ih =>
    by_cases h : d.live = true
    · have hb : (!d.live) = false := by rw [h]; rfl
      simp [List.dropWhile_cons, hb, headLiveOK, h]
    · have hd : d.live = false := by revert h; cases d.live <;> simp
      have hb : (!d.live) = true := by rw [hd]; rfl
      simpa [List.dropWhile_cons, hb] using ih

/-- Dropping destructed chunks does not change the live chunks. -/
theorem dropWhile_live_filter :
    ∀ (l : List ChunkInfo),
      ((l.dropWhile fun d => !d.live).filter fun d => d.live) = l.filter fun d => d.live := by
  intro l
  induction l with
  | nil => rfl
  | cons d t ih =>
    by_cases h : d.live = true
    · have hb : (!d.live) = false := by rw [h]; rfl
      simp [List.dropWhile_cons, hb]
    · have hd : d.live = false := by revert h; cases d.live <;> simp
      have hb : (!d.live) = true := by rw [hd]; rfl
      simpa [List.dropWhile_cons, hb, List.filter_cons, hd] using ih

/-- Behaviour of the reclamation scan on a well-formed chain: it removes
exactly the leading run of destructed chunks, leaves buffer and header memory
untouched, only lowers `tos`, and preserves the invariant for the remaining
chain. -/
theorem rewind_spec (P : Platform) (hstride : 0 < P.stride) :
    ∀ (chks : List ChunkInfo) (fuel : Nat) (s : ArenaState),
      WFr P s chks → chks.length < fuel →
      (deallocate_as_possible_fuel P fuel s).base = s.base ∧
      (deallocate_as_possible_fuel P fuel s).cap = s.cap ∧
      (deallocate_as_possible_fuel P fuel s).hdrs = s.hdrs ∧
      (deallocate_as_possible_fuel P fuel s).tos ≤ s.tos ∧
      WFr P (deallocate_as_possible_fuel P fuel s) (chks.dropWhile fun d => !d.live) := by
  intro chks
  induction chks with
  | nil =>
    intro fuel s hWF hlen
    have htop : s.top_chunk = 0 := hWF.2.2.2.2.1
    cases fuel with
    | zero => simp at hlen
    | succ f =>
      have hcond : ¬(s.top_chunk ≠ 0 ∧ (s.hdrs s.top_chunk).dtor = P.freeMarkerXor) := by
        simp [htop]
      simp only [deallocate_as_possible_fuel, if_neg hcond, List.dropWhile_nil]
      exact ⟨trivial, trivial, trivial, le_refl _, hWF⟩
  | cons c rest ih =>
    intro fuel s hWF hlen
    obtain ⟨hb0, hbm, hbt, htc, hchain, hemp, hlast, hnz⟩ := hWF
    have htc' : s.tos ≤ s.base + s.cap := htc
    have hch := hchain
    simp only [chainWF] at hch
    obtain ⟨hcur, hne, hble, hbd, hdtor, hcks, hdne, hrest⟩ := hch
    cases fuel with
    | zero => simp at hlen
    | succ f =>
      by_cases hlive : c.live = true
      · have hstop : ¬(s.top_chunk ≠ 0 ∧ (s.hdrs s.top_chunk).dtor = P.freeMarkerXor) := by
          intro hcl
          rw [hcur, hdtor, if_pos hlive] at hcl
          exact hdne (xor_ptr_inj P c.dtor P.freeMarkerDtor hcl.2)
        have hb : (!c.live) = false := by rw [hlive]; rfl
        simp only [deallocate_as_possible_fuel, if_neg hstop, List.dropWhile_cons, hb,
          Bool.false_eq_true, if_false]
        exact ⟨trivial, trivial, trivial, le_refl _, hb0, hbm, hbt, htc, hchain, hemp, hlast, hnz⟩
      · have hlf : c.live = false := by revert hlive; cases c.live <;> simp
        have hcond : s.top_chunk ≠ 0 ∧ (s.hdrs s.top_chunk).dtor = P.freeMarkerXor := by
          constructor
          · rw [hcur]; exact hne
          · rw [hcur, hdtor, hlf]; rfl
        have hb : (!c.live) = true := by rw [hlf]; rfl
        simp only [deallocate_as_possible_fuel, if_pos hcond, List.dropWhile_cons, hb, if_true]
        have hWF2 : WFr P { s with tos := s.top_chunk, top_chunk := (s.hdrs s.top_chunk).prev }
            rest := by
          refine ⟨hb0, hbm, ?_, ?_, ?_, ?_, ?_, ?_⟩
          · show s.base ≤ s.top_chunk
            rw [hcur]
            exact hble
          · show s.top_chunk ≤ s.base + s.cap
            rw [hcur]
            omega
          · show chainWF P s.base s.hdrs rest (s.hdrs s.top_chunk).prev s.top_chunk
            rw [hcur]
            exact hrest
          · intro hre
            show s.top_chunk = s.base
            rw [hcur]
            apply hlast
            rw [hre]
            rfl
          · intro d hd
            apply hlast
            cases rest with
            | nil => simp at hd
            | cons y u =>
              rw [List.getLast?_cons_cons]
              exact hd
          · intro e he
            exact hnz e (by simp [he])
        have hlen2 : rest.length < f := by
          simp only [List.length_cons] at hlen
          omega
        have hr := ih f _ hWF2 hlen2
        refine ⟨hr.1, hr.2.1, hr.2.2.1, ?_, hr.2.2.2.2⟩
        have h1 := hr.2.2.2.1
        have h2 : s.top_chunk ≤ s.tos := by
          rw [hcur]
          omega
        exact le_trans h1 h2

/-- One `pop` of a live top chunk: it emits mark, rewind, invoke (with the
decoded real destructor of the top chunk), reclaims the top chunk together
with the following run of destructed chunks, and preserves the invariant. -/
theorem WF_pop (P : Platform) (hstride : 0 < P.stride) (s : ArenaState)
    (c : ChunkInfo) (rest : List ChunkInfo) (hWF : WF P s (c :: rest)) :
    ∃ s', pop P s s.top_chunk (s.top_chunk + P.stride) =
        (s', [Event.markFree s.top_chunk, Event.rewind s'.tos s'.top_chunk,
              Event.invoke c.dtor (s.top_chunk + P.stride)])
      ∧ WF P s' (rest.dropWhile fun d => !d.live)
      ∧ s'.base = s.base ∧ s'.cap = s.cap := by
  obtain ⟨⟨hb0, hbm, hbt, htc, hchain, hemp, hlast, hnz⟩, hhl⟩ := hWF
  have hlive : c.live = true := hhl
  have htc' : s.tos ≤ s.base + s.cap := htc
  have hch := hchain
  simp only [chainWF] at hch
  obtain ⟨hcur, hne, hble, hbd, hdtor, hcks, hdne, hrest⟩ := hch
  have hrange2 : c.hdr ≤ s.base + s.cap := by omega
  have hvalid : is_valid_hdr P s s.top_chunk = true := by
    rw [hcur]
    unfold is_valid_hdr checksum_ok end_of_mem
    rw [hcks, hdtor, if_pos hlive]
    simp [hble, hrange2]
  have hmark : mark_as_destructed P s s.top_chunk =
      (markedState P s s.top_chunk, xor_ptr P (s.hdrs s.top_chunk).dtor,
       [Event.markFree s.top_chunk]) := by
    simp [mark_as_destructed, hvalid]
  have hdec : xor_ptr P (s.hdrs s.top_chunk).dtor = c.dtor := by
    rw [hcur, hdtor, if_pos hlive]
    unfold xor_ptr
    exact xor_xor_cancel c.dtor P.xorCookie
  have hread : (markedState P s s.top_chunk).hdrs c.hdr
      = { s.hdrs c.hdr with dtor := P.freeMarkerXor } := by
    rw [hcur]
    simp [markedState, setHdr]
  have hWFm : WFr P (markedState P s s.top_chunk) ({ c with live := false } :: rest) := by
    refine ⟨hb0, hbm, hbt, htc, ?_, ?_, ?_, ?_⟩
    · simp only [chainWF]
      refine ⟨hcur, hne, hble, hbd, ?_, ?_, hdne, ?_⟩
      · show ((markedState P s s.top_chunk).hdrs c.hdr).dtor = P.freeMarkerXor
        rw [hread]
      · show ((markedState P s s.top_chunk).hdrs c.hdr).checksum
            = make_checksum P ((markedState P s s.top_chunk).hdrs c.hdr).prev
                (xor_ptr P c.dtor)
        rw [hread]
        exact hcks
      · show chainWF P s.base (markedState P s s.top_chunk).hdrs rest
            ((markedState P s s.top_chunk).hdrs c.hdr).prev c.hdr
        rw [hread]
        have hset := chainWF_set P hstride s.base s.hdrs s.top_chunk
            { s.hdrs s.top_chunk with dtor := P.freeMarkerXor } rest
            ((s.hdrs c.hdr).prev) c.hdr hrest (by omega)
        exact hset
    · intro habs
      simp at habs
    · intro d hd
      cases rest with
      | nil =>
        have hd2 : ({ c with live := false } : ChunkInfo) = d := by
          simpa using hd
        have hc : c.hdr = s.base := hlast c (by simp)
        rw [← hd2]
        exact hc
      | cons y u =>
        rw [List.getLast?_cons_cons] at hd
        apply hlast
        rw [List.getLast?_cons_cons]
        exact hd
    · intro e he
      rcases List.mem_cons.mp he with h1 | h2
      · rw [h1]
        exact hne
      · exact hnz e (by simp [h2])
  have hlenm : ({ c with live := false } :: rest).length
      < (markedState P s s.top_chunk).cap + 1 := by
    have h1 := chainWF_length P hstride (markedState P s s.top_chunk).base
      (markedState P s s.top_chunk).hdrs _ _ _ hWFm.2.2.2.2.1
    have e1 : (markedState P s s.top_chunk).tos = s.tos := rfl
    have e2 : (markedState P s s.top_chunk).base = s.base := rfl
    have e3 : (markedState P s s.top_chunk).cap = s.cap := rfl
    rw [e1, e2] at h1
    rw [e3]
    omega
  have hrw := rewind_spec P hstride ({ c with live := false } :: rest)
      ((markedState P s s.top_chunk).cap + 1) (markedState P s s.top_chunk) hWFm hlenm
  have hdw : (({ c with live := false } :: rest).dropWhile fun d => !d.live)
      = rest.dropWhile fun d => !d.live := by
    rw [List.dropWhile_cons]
    simp
  rw [hdw] at hrw
  refine ⟨deallocate_as_possible P (markedState P s s.top_chunk), ?_, ?_, ?_, ?_⟩
  · simp only [pop, hmark]
    simp [hdec, deallocate_as_possible]
  · exact ⟨hrw.2.2.2.2, dropWhile_live_head rest⟩
  · exact hrw.1
  · exact hrw.2.1

/-- Marking one live chunk of a well-formed chain as destructed (overwriting
its destructor slot only) preserves the chain invariant for the ghost-marked
record: addresses are pairwise distinct along the chain, so exactly one header
changes, and its stale checksum is still the one the ghost record predicts. -/
theorem chainWF_mark (P : Platform) (hstride : 0 < P.stride) (base : Nat)
    (hdrs : Nat → ChunkHeader) (c0 : ChunkInfo) :
    ∀ (chks : List ChunkInfo) (cursor bound : Nat),
      chainWF P base hdrs chks cursor bound → c0 ∈ chks →
      chainWF P base (setHdr hdrs c0.hdr { hdrs c0.hdr with dtor := P.freeMarkerXor })
        (markGhost chks c0.hdr) cursor bound := by
  intro chks
  induction chks with
  | nil =>
    intro cursor bound _ hc
    simp at hc
  | cons d rest ih =>
    intro cursor bound h hc
    simp only [chainWF] at h
    obtain ⟨h1, h2, h3, h4, h5, h6, h7, h8⟩ := h
    rcases List.mem_cons.mp hc with hcd | hcr
    · subst hcd
      have hrid : markGhost rest c0.hdr = rest := by
        apply markGhost_id
        intro e he
        have := (chainWF_mem P base hdrs rest _ _ e h8 he).2.1
        omega
      have hreadv : setHdr hdrs c0.hdr { hdrs c0.hdr with dtor := P.freeMarkerXor } c0.hdr
          = { hdrs c0.hdr with dtor := P.freeMarkerXor } := by
        simp [setHdr]
      simp only [markGhost, List.map_cons, if_pos rfl]
      have hrid2 : List.map
          (fun d => if d.hdr = c0.hdr then { d with live := false } else d) rest = rest := hrid
      rw [hrid2]
      simp only [chainWF]
      refine ⟨h1, h2, h3, h4, ?_, ?_, h7, ?_⟩
      · show (setHdr hdrs c0.hdr { hdrs c0.hdr with dtor := P.freeMarkerXor } c0.hdr).dtor
            = P.freeMarkerXor
        rw [hreadv]
      · show (setHdr hdrs c0.hdr { hdrs c0.hdr with dtor := P.freeMarkerXor } c0.hdr).checksum
            = make_checksum P
                (setHdr hdrs c0.hdr { hdrs c0.hdr with dtor := P.freeMarkerXor } c0.hdr).prev
                (xor_ptr P c0.dtor)
        rw [hreadv]
        exact h6
      · show chainWF P base (setHdr hdrs c0.hdr { hdrs c0.hdr with dtor := P.freeMarkerXor })
            rest
            (setHdr hdrs c0.hdr { hdrs c0.hdr with dtor := P.freeMarkerXor } c0.hdr).prev
            c0.hdr
        rw [hreadv]
        exact chainWF_set P hstride base hdrs c0.hdr _ rest _ _ h8 (le_refl _)
    · have hlt : c0.hdr + P.stride ≤ d.hdr :=
        (chainWF_mem P base hdrs rest _ _ c0 h8 hcr).2.1
      have hne2 : d.hdr ≠ c0.hdr := by omega
      have hread2 : setHdr hdrs c0.hdr { hdrs c0.hdr with dtor := P.freeMarkerXor } d.hdr
          = hdrs d.hdr := by
        simp [setHdr, hne2]
      simp only [markGhost, List.map_cons, if_neg hne2]
      simp only [chainWF]
      refine ⟨h1, h2, h3, h4, ?_, ?_, h7, ?_⟩
      · rw [hread2]
        exact h5
      · rw [hread2]
        exact h6
      · rw [hread2]
        exact ih _ _ h8 hcr

/-- The effective alignment divides `MAX_ALIGN` whenever both of its
ingredients do. -/
theorem alignmentOf_dvd (P : Platform) (T : Ty)
    (hTa : T.align ∣ P.maxAlign) (hHa : P.hdrAlign ∣ P.maxAlign) :
    alignmentOf P T ∣ P.maxAlign := by
  unfold alignmentOf
  by_cases h : P.hdrAlign < T.align
  · rw [if_pos h]
    exact hTa
  · rw [if_neg h]
    exact hHa

/-- A successful allocation preserves the arena invariant, pushing a live
ghost chunk for the new allocation. -/
theorem WF_alloc (P : Platform) (hstride : 0 < P.stride)
    (s : ArenaState) (chunks : List ChunkInfo) (T : Ty) (s' : ArenaState) (p : Nat)
    (hWF : WF P s chunks)
    (hTa : T.align ∣ P.maxAlign) (hHa : P.hdrAlign ∣ P.maxAlign)
    (hTd : T.dtor ≠ P.freeMarkerDtor)
    (heq : alloc P s T = (s', some p)) :
    WF P s' ({ hdr := s'.top_chunk, dtor := T.dtor, live := true } :: chunks) := by
  obtain ⟨⟨hb0, hbm, hbt, htc, hchain, hemp, hlast, hnz⟩, hhl⟩ := hWF
  by_cases hm : mem_available P s T
  · have hs' : s' = allocate P s (alignmentOf P T) T.size (xor_ptr P T.dtor) := by
      have h2 := congrArg Prod.fst heq
      simp only [alloc, hm, if_true] at h2
      exact h2.symm
    subst hs'
    have hmlt : s.tos + offset_to_alignment s.tos (alignmentOf P T) + P.stride + T.size
        < s.base + s.cap := by
      have := hm
      simp only [mem_available, decide_eq_true_eq, end_of_mem] at this
      exact this
    have e1 : (allocate P s (alignmentOf P T) T.size (xor_ptr P T.dtor)).top_chunk
        = s.tos + offset_to_alignment s.tos (alignmentOf P T) := rfl
    have e2 : (allocate P s (alignmentOf P T) T.size (xor_ptr P T.dtor)).tos
        = s.tos + offset_to_alignment s.tos (alignmentOf P T) + P.stride + T.size := rfl
    have e3 : (allocate P s (alignmentOf P T) T.size (xor_ptr P T.dtor)).base = s.base := rfl
    have e4 : (allocate P s (alignmentOf P T) T.size (xor_ptr P T.dtor)).cap = s.cap := rfl
    have e5 : (allocate P s (alignmentOf P T) T.size (xor_ptr P T.dtor)).hdrs
        = setHdr s.hdrs (s.tos + offset_to_alignment s.tos (alignmentOf P T))
            { prev := s.top_chunk, dtor := xor_ptr P T.dtor
              checksum := make_checksum P s.top_chunk (xor_ptr P T.dtor) } := rfl
    have hreadv : (allocate P s (alignmentOf P T) T.size (xor_ptr P T.dtor)).hdrs
        (s.tos + offset_to_alignment s.tos (alignmentOf P T))
        = { prev := s.top_chunk, dtor := xor_ptr P T.dtor
            checksum := make_checksum P s.top_chunk (xor_ptr P T.dtor) } := by
      rw [e5]
      simp [setHdr]
    constructor
    · refine ⟨?_, ?_, ?_, ?_, ?_, ?_, ?_, ?_⟩
      · rw [e3]
        exact hb0
      · rw [e3]
        exact hbm
      · rw [e3, e2]
        omega
      · show (allocate P s (alignmentOf P T) T.size (xor_ptr P T.dtor)).tos
            ≤ (allocate P s (alignmentOf P T) T.size (xor_ptr P T.dtor)).base
              + (allocate P s (alignmentOf P T) T.size (xor_ptr P T.dtor)).cap
        rw [e2, e3, e4]
        omega
      · simp only [chainWF]
        refine ⟨trivial, ?_, ?_, ?_, ?_, ?_, hTd, ?_⟩
        · show (allocate P s (alignmentOf P T) T.size (xor_ptr P T.dtor)).top_chunk ≠ 0
          rw [e1]
          omega
        · show (allocate P s (alignmentOf P T) T.size (xor_ptr P T.dtor)).base
              ≤ (allocate P s (alignmentOf P T) T.size (xor_ptr P T.dtor)).top_chunk
          rw [e1, e3]
          omega
        · show (allocate P s (alignmentOf P T) T.size (xor_ptr P T.dtor)).top_chunk + P.stride
              ≤ (allocate P s (alignmentOf P T) T.size (xor_ptr P T.dtor)).tos
          rw [e1, e2]
          omega
        · show ((allocate P s (alignmentOf P T) T.size (xor_ptr P T.dtor)).hdrs
              (allocate P s (alignmentOf P T) T.size (xor_ptr P T.dtor)).top_chunk).dtor
              = xor_ptr P T.dtor
          rw [e1, hreadv]
        · show ((allocate P s (alignmentOf P T) T.size (xor_ptr P T.dtor)).hdrs
              (allocate P s (alignmentOf P T) T.size (xor_ptr P T.dtor)).top_chunk).checksum
              = make_checksum P
                  ((allocate P s (alignmentOf P T) T.size (xor_ptr P T.dtor)).hdrs
                    (allocate P s (alignmentOf P T) T.size (xor_ptr P T.dtor)).top_chunk).prev
                  (xor_ptr P T.dtor)
          rw [e1, hreadv]
        · show chainWF P (allocate P s (alignmentOf P T) T.size (xor_ptr P T.dtor)).base
              (allocate P s (alignmentOf P T) T.size (xor_ptr P T.dtor)).hdrs chunks
              ((allocate P s (alignmentOf P T) T.size (xor_ptr P T.dtor)).hdrs
                (allocate P s (alignmentOf P T) T.size (xor_ptr P T.dtor)).top_chunk).prev
              (allocate P s (alignmentOf P T) T.size (xor_ptr P T.dtor)).top_chunk
          rw [e1, e3, hreadv, e5]
          apply chainWF_set P hstride s.base s.hdrs _ _ chunks s.top_chunk _
          · exact chainWF_mono P s.base s.hdrs chunks s.top_chunk s.tos _ hchain (by omega)
          · omega
      · intro habs
        simp at habs
      · intro d hd
        cases chunks with
        | nil =>
          have hd2 : ({ hdr := (allocate P s (alignmentOf P T) T.size
              (xor_ptr P T.dtor)).top_chunk, dtor := T.dtor, live := true } : ChunkInfo)
              = d := by
            simpa using hd
          have htos : s.tos = s.base := hemp rfl
          have heffd : alignmentOf P T ∣ s.base :=
            dvd_trans (alignmentOf_dvd P T hTa hHa) hbm
          obtain ⟨k, hk⟩ := heffd
          have hpad : offset_to_alignment s.tos (alignmentOf P T) = 0 := by
            rw [htos, hk]
            exact offset_to_alignment_mul (alignmentOf P T) k
          rw [← hd2]
          show (allocate P s (alignmentOf P T) T.size (xor_ptr P T.dtor)).top_chunk
              = (allocate P s (alignmentOf P T) T.size (xor_ptr P T.dtor)).base
          rw [e1, e3, hpad, htos]
          omega
        | cons y u =>
          rw [List.getLast?_cons_cons] at hd
          rw [e3]
          exact hlast d hd
      · intro e he
        rcases List.mem_cons.mp he with h1 | h2
        · rw [h1]
          show (allocate P s (alignmentOf P T) T.size (xor_ptr P T.dtor)).top_chunk ≠ 0
          rw [e1]
          omega
        · exact hnz e h2
    · exact rfl
  · exfalso
    have h2 := congrArg Prod.snd heq
    simp [alloc, hm] at h2

/-- An interior deallocation of a live, non-top object preserves the arena
invariant for the ghost-marked record; cursors and buffer bounds are
untouched. -/
theorem WF_destruct (P : Platform) (hstride : 0 < P.stride)
    (s : ArenaState) (chunks : List ChunkInfo) (c : ChunkInfo)
    (hWF : WF P s chunks) (hmem : c ∈ chunks) (hlive : c.live = true)
    (hnt : c.hdr ≠ s.top_chunk) :
    WF P (dealloc P s (c.hdr + P.stride)).1 (markGhost chunks c.hdr) := by
  obtain ⟨⟨hb0, hbm, hbt, htc, hchain, hemp, hlast, hnz⟩, hhl⟩ := hWF
  have htc' : s.tos ≤ s.base + s.cap := htc
  obtain ⟨hble, hbd, hdtor, hcks, hdne⟩ :=
    chainWF_mem P s.base s.hdrs chunks s.top_chunk s.tos c hchain hmem
  have h0 : ¬(c.hdr + P.stride = 0) := by omega
  have hch : to_chunk_header P (c.hdr + P.stride) = c.hdr := by
    unfold to_chunk_header
    omega
  have histop : is_top P s (c.hdr + P.stride) = false := by
    simp only [is_top, beq_eq_false_iff_ne, ne_eq, hch]
    exact hnt
  have hvalid : is_valid_hdr P s c.hdr = true := by
    unfold is_valid_hdr checksum_ok end_of_mem
    rw [hcks, hdtor, if_pos hlive]
    have hr2 : c.hdr ≤ s.base + s.cap := by omega
    simp [hble, hr2]
  have hd1 : (dealloc P s (c.hdr + P.stride)).1 = markedState P s c.hdr := by
    simp [dealloc, h0, histop, destruct, mark_as_destructed, hch, hvalid]
  rw [hd1]
  have em1 : (markedState P s c.hdr).base = s.base := rfl
  have em2 : (markedState P s c.hdr).cap = s.cap := rfl
  have em3 : (markedState P s c.hdr).tos = s.tos := rfl
  have em4 : (markedState P s c.hdr).top_chunk = s.top_chunk := rfl
  have em5 : (markedState P s c.hdr).hdrs
      = setHdr s.hdrs c.hdr { s.hdrs c.hdr with dtor := P.freeMarkerXor } := rfl
  constructor
  · refine ⟨?_, ?_, ?_, ?_, ?_, ?_, ?_, ?_⟩
    · rw [em1]
      exact hb0
    · rw [em1]
      exact hbm
    · rw [em1, em3]
      exact hbt
    · show (markedState P s c.hdr).tos ≤ (markedState P s c.hdr).base + (markedState P s c.hdr).cap
      rw [em1, em2, em3]
      exact htc'
    · rw [em1, em3, em4, em5]
      exact chainWF_mark P hstride s.base s.hdrs c chunks s.top_chunk s.tos hchain hmem
    · intro habs
      have : chunks = [] := by
        have := congrArg List.length habs
        simp only [markGhost, List.length_map, List.length_nil] at this
        exact List.length_eq_zero.mp this
      rw [em1, em3]
      exact hemp this
    · intro d hd
      obtain ⟨e, he1, he2⟩ := markGhost_getLast_hdr c.hdr chunks d hd
      rw [em1, he2]
      exact hlast e he1
    · intro e he
      simp only [markGhost] at he
      obtain ⟨x, hx1, hx2⟩ := List.mem_map.mp he
      have hxh : e.hdr = x.hdr := by
        rw [← hx2]
        by_cases hc2 : x.hdr = c.hdr
        · rw [if_pos hc2]
        · rw [if_neg hc2]
      rw [hxh]
      exact hnz x hx1
  · cases hzc : chunks with
    | nil =>
      simp [markGhost, hzc]
      trivial
    | cons d t =>
      have hdt : s.top_chunk = d.hdr := by
        rw [hzc] at hchain
        simp only [chainWF] at hchain
        exact hchain.1
      have hdne2 : d.hdr ≠ c.hdr := by
        rw [← hdt]
        intro hx
        exact hnt hx.symm
      have hdl : d.live = true := by
        rw [hzc] at hhl
        exact hhl
      show headLiveOK (markGhost (d :: t) c.hdr)
      simp only [markGhost, List.map_cons, if_neg hdne2]
      exact hdl

/-- Every reachable state satisfies the arena invariant with its ghost
record. -/
theorem Reach_WF (P : Platform) (hstride : 0 < P.stride) (s : ArenaState)
    (chunks : List ChunkInfo) (h : Reach P s chunks) : WF P s chunks := by
  induction h with
  | init base cap hdrs hb hdvd =>
    constructor
    · refine ⟨hb, hdvd, le_refl _, ?_, ?_, ?_, ?_, ?_⟩
      · show base ≤ base + cap
        omega
      · show chainWF P base hdrs [] 0 base
        exact rfl
      · intro _
        rfl
      · intro d hd
        simp at hd
      · intro e he
        simp at he
    · trivial
  | alloc_step s chunks T s' p hr hTa hHa hTd heq ih =>
    exact WF_alloc P hstride s chunks T s' p ih hTa hHa hTd heq
  | dealloc_step s chunks c s' tr hr hmem hlive hnt heq ih =>
    have h2 : (dealloc P s (c.hdr + P.stride)).1 = s' := by
      rw [heq]
    rw [← h2]
    exact WF_destruct P hstride s chunks c ih hmem hlive hnt

/-- Destructor invocations of concatenated traces concatenate. -/
theorem invokes_append (a b : List Event) : invokes (a ++ b) = invokes a ++ invokes b := by
  simp [invokes]

/-- The `dealloc_all` loop on a well-formed arena: each iteration pops the
(live) top chunk, invoking exactly its real destructor, and skips the
destructed chunks below via the rewind; the loop ends with a null `top_chunk`
and `tos` back at the buffer base. -/
theorem dealloc_all_fuel_spec (P : Platform) (hstride : 0 < P.stride) :
    ∀ (fuel : Nat) (chunks : List ChunkInfo) (s : ArenaState),
      WF P s chunks → chunks.length < fuel →
      invokes (dealloc_all_fuel P fuel s).2
          = (chunks.filter fun c => c.live).map (fun c => (c.dtor, c.hdr + P.stride)) ∧
      (dealloc_all_fuel P fuel s).1.top_chunk = 0 ∧
      (dealloc_all_fuel P fuel s).1.tos = s.base ∧
      (dealloc_all_fuel P fuel s).1.base = s.base ∧
      (dealloc_all_fuel P fuel s).1.cap = s.cap := by
  intro fuel
  induction fuel with
  | zero =>
    intro chunks s _ hlen
    simp at hlen
  | succ f ih =>
    intro chunks s hWF hlen
    cases chunks with
    | nil =>
      have htop : s.top_chunk = 0 := hWF.1.2.2.2.2.1
      have htos : s.tos = s.base := hWF.1.2.2.2.2.2.1 rfl
      have hcond : ¬(s.top_chunk ≠ 0) := by simp [htop]
      have hstep : dealloc_all_fuel P (f + 1) s = (s, []) := by
        simp only [dealloc_all_fuel, if_neg hcond]
      rw [hstep]
      exact ⟨rfl, htop, htos, rfl, rfl⟩
    | cons c rest =>
      have hchain := hWF.1.2.2.2.2.1
      have hcur : s.top_chunk = c.hdr := by
        simp only [chainWF] at hchain
        exact hchain.1
      have hne0 : c.hdr ≠ 0 := by
        simp only [chainWF] at hchain
        exact hchain.2.1
      have hcond : s.top_chunk ≠ 0 := by
        rw [hcur]
        exact hne0
      obtain ⟨s1, hpop, hWF1, hb1, hc1⟩ := WF_pop P hstride s c rest hWF
      have hle : (rest.dropWhile fun d => !d.live).length ≤ rest.length :=
        (List.dropWhile_sublist _).length_le
      have hlen1 : (rest.dropWhile fun d => !d.live).length < f := by
        simp only [List.length_cons] at hlen
        omega
      have IH := ih (rest.dropWhile fun d => !d.live) s1 hWF1 hlen1
      have hstep : dealloc_all_fuel P (f + 1) s
          = ((dealloc_all_fuel P f s1).1,
             [Event.markFree s.top_chunk, Event.rewind s1.tos s1.top_chunk,
              Event.invoke c.dtor (s.top_chunk + P.stride)]
               ++ (dealloc_all_fuel P f s1).2) := by
        simp only [dealloc_all_fuel, if_pos hcond]
        rw [hpop]
      rw [hstep]
      refine ⟨?_, IH.2.1, ?_, ?_, ?_⟩
      · have hlivec : c.live = true := hWF.2
        rw [invokes_append, IH.1, dropWhile_live_filter]
        have hinv : invokes [Event.markFree s.top_chunk, Event.rewind s1.tos s1.top_chunk,
            Event.invoke c.dtor (s.top_chunk + P.stride)]
            = [(c.dtor, s.top_chunk + P.stride)] := rfl
        rw [hinv]
        simp [List.filter_cons, hlivec, hcur]
      · rw [IH.2.2.1, hb1]
      · rw [IH.2.2.2.1, hb1]
      · rw [IH.2.2.2.2, hc1]

/-- C3: from any state reached by successful allocations with interleaved
interior deallocations, `dealloc_all` invokes the real destructor of every
not-yet-destructed object exactly once, in strict reverse allocation order
(the ghost record is newest first), and on return `top_chunk` is null and
`size()` is 0; a second `dealloc_all` on the resulting empty arena is a no-op,
so two successive calls are equivalent to one. -/
theorem dealloc_all_spec (P : Platform) (s : ArenaState) (chunks : List ChunkInfo)
    (hstride : 0 < P.stride) (hreach : Reach P s chunks) :
    invokes (dealloc_all P s).2
        = (chunks.filter fun c => c.live).map (fun c => (c.dtor, c.hdr + P.stride)) ∧
    (dealloc_all P s).1.top_chunk = 0 ∧
    size (dealloc_all P s).1 = 0 ∧
    dealloc_all P (dealloc_all P s).1 = ((dealloc_all P s).1, []) := by
  have hWF := Reach_WF P hstride s chunks hreach
  have htc : s.tos ≤ s.base + s.cap := hWF.1.2.2.2.1
  have hlen : chunks.length < s.cap + 1 := by
    have h1 := chainWF_length P hstride s.base s.hdrs chunks s.top_chunk s.tos hWF.1.2.2.2.2.1
    omega
  have H := dealloc_all_fuel_spec P hstride (s.cap + 1) chunks s hWF hlen
  have hda : dealloc_all P s = dealloc_all_fuel P (s.cap + 1) s := rfl
  rw [hda]
  have hcond : ¬((dealloc_all_fuel P (s.cap + 1) s).1.top_chunk ≠ 0) := by
    simp [H.2.1]
  refine ⟨H.1, H.2.1, ?_, ?_⟩
  · unfold size
    rw [H.2.2.1, H.2.2.2.1]
    omega
  · set s' := (dealloc_all_fuel P (s.cap + 1) s).1 with hs'
    have htop0 : s'.top_chunk = 0 := H.2.1
    show dealloc_all P s' = (s', [])
    have h2 : dealloc_all P s' = dealloc_all_fuel P (s'.cap + 1) s' := rfl
    rw [h2]
    have hcond2 : ¬(s'.top_chunk ≠ 0) := by simp [htop0]
    simp only [dealloc_all_fuel, if_neg hcond2]

/-- C3 witness: the two-allocation arena with the buried first object interior
deallocated; `dealloc_all` invokes exactly the remaining live destructor and
leaves an empty arena. -/
theorem dealloc_all_spec_witness :
    invokes (dealloc_all P0 s3).2
        = (g3.filter fun c => c.live).map (fun c => (c.dtor, c.hdr + P0.stride)) ∧
    (dealloc_all P0 s3).1.top_chunk = 0 ∧
    size (dealloc_all P0 s3).1 = 0 ∧
    dealloc_all P0 (dealloc_all P0 s3).1 = ((dealloc_all P0 s3).1, []) := by
  have h0 : Reach P0 s0 [] := by
    have h := Reach.init (P := P0) 16 200 (fun _ => ⟨0, 0, 0⟩) (by decide) (by decide)
    exact h
  have h1 : Reach P0 s1 g1 := by
    have h := Reach.alloc_step s0 [] tyA s1 48 h0 (by decide) (by decide) (by decide) rfl
    exact h
  have h2 : Reach P0 s2 g2 := by
    have h := Reach.alloc_step s1 g1 tyB s2 88 h1 (by decide) (by decide) (by decide) rfl
    exact h
  have h3 : Reach P0 s3 g3 := by
    have h := Reach.dealloc_step s2 g2 cA s3 (dealloc P0 s2 (cA.hdr + P0.stride)).2 h2
      (by decide) (by decide) (by decide) rfl
    exact h
  exact dealloc_all_spec P0 s3 g3 (by decide) h3
